import Mathlib

/-!
Verification of the baremetal iSCSI volume driver
(`ironic/nova/volume_driver.py`).

Strings are modelled as lists of characters.  Each pure Python helper
(`_get_next_tid`, `_find_tid`, `_get_iqn`, `_list_backingstore_path`) is
embedded as a Lean function over that representation, taking the daemon
status text as an explicit input where the Python code shells out to
`tgtadm --op show`.  The stateful orchestration (`_delete_iscsi_export_tgtadm`,
`attach_volume`, `detach_volume`, `get_volume_connector`) is embedded as
functions over an explicit environment mapping each administrative command
to its result (success, or a `ProcessExecutionError` carrying an exit code);
each returns the trace of external calls issued together with the outcome.
-/

namespace Baremetal

/-- Helper of `splitLines`: prepend one character to the first piece. -/
def consHead (c : Char) : List (List Char) → List (List Char)
  | [] => [[c]]
  | l :: ls => (c :: l) :: ls

/-- Python `out.split('\n')`: cut at every newline, keeping empty pieces
    (so the empty text yields one empty line, as in Python). -/
def splitLines : List Char → List (List Char)
  | [] => [[]]
  | c :: rest => if c = '\n' then [] :: splitLines rest else consHead c (splitLines rest)

/-- Boolean list-initial-segment test (the anchored head of a `re.search`
    whose pattern begins with `^`). -/
def isPref : List Char → List Char → Bool
  | [], _ => true
  | _ :: _, [] => false
  | a :: as, b :: bs => a == b && isPref as bs

/-- Python `int()` on a run of decimal digits (group 1 of the target regex). -/
def digitsToNat (ds : List Char) : Nat :=
  ds.foldl (fun n c => 10 * n + (c.toNat - 48)) 0

/-- The literal head of the pattern `^Target (\d+):`. -/
def targetPat : List Char := "Target ".data

/-- The `(\d+):` part of `^Target (\d+):` applied to what follows `Target `:
    a non-empty maximal run of digits must be followed by a colon; the
    captured id and the text after the colon are returned. -/
def tidOfRest (rest : List Char) : Option (Nat × List Char) :=
  if rest.takeWhile Char.isDigit = [] then none
  else
    match rest.dropWhile Char.isDigit with
    | ':' :: after => some (digitsToNat (rest.takeWhile Char.isDigit), after)
    | _ => none

/-- `re.search(r'^Target (\d+):', line)`: anchored at the start of the line;
    on success returns the captured target id and the text after the colon. -/
def parseTargetHeader (line : List Char) : Option (Nat × List Char) :=
  if isPref targetPat line then tidOfRest (line.drop targetPat.length) else none

/-- The loop of `_get_next_tid`: keep the largest target id seen so far
    (`last_tid`, updated only when strictly larger). -/
def nextTidLoop : List (List Char) → Nat → Nat
  | [], last => last
  | l :: ls, last =>
      match parseTargetHeader l with
      | some (tid, _) => nextTidLoop ls (if last < tid then tid else last)
      | none => nextTidLoop ls last

/-- `_get_next_tid`, with the status text returned by `_show_tgtadm` as
    input: the maximal target id of any header line, plus one. -/
def getNextTid (out : List Char) : Nat :=
  nextTidLoop (splitLines out) 0 + 1

/-- The tail ` *<iqn>` of the pattern `^Target (\d+): *<escaped iqn>` applied
    to the text after the colon: the regex engine may consume any number of
    leading blanks before matching the (escaped, hence literal) iqn, and
    nothing anchors the end, so the iqn only has to start the remaining text. -/
def matchIqnAfterSpaces (iqn : List Char) : List Char → Bool
  | [] => isPref iqn []
  | c :: rs => isPref iqn (c :: rs) || (c == ' ' && matchIqnAfterSpaces iqn rs)

/-- The loop of `_find_tid`: first line whose header matches the pattern
    built from the iqn wins; other lines are skipped. -/
def findTidLines (iqn : List Char) : List (List Char) → Option Nat
  | [] => none
  | l :: ls =>
      match parseTargetHeader l with
      | some (tid, after) =>
          if matchIqnAfterSpaces iqn after then some tid else findTidLines iqn ls
      | none => findTidLines iqn ls

/-- `_find_tid(iqn)`, with the status text as input; `none` is the Python
    `None` ("not found"). -/
def findTid (iqn out : List Char) : Option Nat :=
  findTidLines iqn (splitLines out)

/-- Python `mountpoint.replace('/', '-')`. -/
def pyReplaceSlash : List Char → List Char
  | [] => []
  | c :: cs => (if c = '/' then '-' else c) :: pyReplaceSlash cs

/-- Python `s.strip('-')`: remove every leading and every trailing hyphen. -/
def pyStripDash (l : List Char) : List Char :=
  ((l.dropWhile (fun c => c == '-')).reverse.dropWhile (fun c => c == '-')).reverse

/-- `_get_iqn(instance_name, mountpoint)`, with the configured
    `iscsi_iqn_prefix` made explicit: `'%s:%s-%s' % (prefix, instance_name, mp)`
    where `mp` is the mount point with slashes replaced by hyphens and
    leading/trailing hyphens stripped. -/
def getIqn (pfx name mp : List Char) : List Char :=
  pfx ++ ':' :: (name ++ '-' :: pyStripDash (pyReplaceSlash mp))

/-- The literal part of the pattern `Backing store path: (.*)$`. -/
def backingPat : List Char := "Backing store path: ".data

/-- Unanchored `re.search`: the text after the first occurrence of `pat`
    anywhere in the line (the greedy `(.*)$` captures everything to the end). -/
def afterFirst (pat : List Char) : List Char → Option (List Char)
  | [] => if isPref pat [] then some [] else none
  | c :: rest =>
      if isPref pat (c :: rest) then some ((c :: rest).drop pat.length)
      else afterFirst pat rest

/-- `re.search(r'Backing store path: (.*)$', line)`, group 1. -/
def backingLine (line : List Char) : Option (List Char) := afterFirst backingPat line

/-- The loop of `_list_backingstore_path`: collect captured values that
    contain a slash (`'/' in m.group(1)`), in line order. -/
def lbLoop : List (List Char) → List (List Char)
  | [] => []
  | l :: ls =>
      match backingLine l with
      | some v => if v.contains '/' then v :: lbLoop ls else lbLoop ls
      | none => lbLoop ls

/-- `_list_backingstore_path` (and hence `get_all_block_devices`), with the
    status text as input. -/
def listBackingstorePath (out : List Char) : List (List Char) :=
  lbLoop (splitLines out)

/-- Specification-side definitions used to state the claims about the
    parser and allocator. -/
def natListMax : List Nat → Nat := List.foldr Nat.max 0

/-- The target ids of all lines matching the header pattern, in line order. -/
def headerTids (out : List Char) : List Nat :=
  (splitLines out).filterMap (fun l => (parseTargetHeader l).map Prod.fst)

/-- Specification-side matcher, written independently of the regex engine:
    after the colon, some number of leading blanks may be skipped, and the
    iqn must be an initial segment of what remains. -/
def prefixMatchAfter (iqn after : List Char) : Bool :=
  (List.range (after.length + 1)).any
    (fun k => ((after.take k).all (fun c => c == ' ')) && isPref iqn (after.drop k))

/-- Specification-side `findTargetId` with initial-segment matching: the
    first parsed header record whose name extends the iqn. -/
def findTidPrefixSpec (iqn out : List Char) : Option Nat :=
  (((splitLines out).filterMap parseTargetHeader).find?
      (fun q => prefixMatchAfter iqn q.2)).map Prod.fst

/-- The target name of a parsed header as the specification reads it: the
    text after the colon with leading blanks removed. -/
def targetNameOf (after : List Char) : List Char := after.dropWhile (fun c => c == ' ')

/-- Specification-side `findTargetId` as claimed: the first parsed header
    record whose target name EQUALS the iqn. -/
def findTidEqualsSpec (iqn out : List Char) : Option Nat :=
  (((splitLines out).filterMap parseTargetHeader).find?
      (fun q => targetNameOf q.2 == iqn)).map Prod.fst

/-- An administrative command sent to the target daemon by `tgtadm`. -/
inductive TCmd where
  | newTarget (tid : Nat) (iqn : List Char)
  | newLun (tid : Nat) (path : List Char)
  | bindInitiator (tid : Nat) (address : List Char)
  | deleteLun (tid : Nat)
  | deleteTarget (tid : Nat)
  | showTarget (tid : Nat)
  | showAll
  deriving DecidableEq

/-- Result of one external command execution: success, or a
    `ProcessExecutionError` carrying the process exit code. -/
inductive ExecResult where
  | ok
  | fail (exitCode : Nat)
  deriving DecidableEq

/-- The daemon as seen by one driver call: what each command returns, and
    the status text a successful `--op show` (without `--tid`) prints. -/
structure TgtEnv where
  exec : TCmd → ExecResult
  statusText : List Char

/-- Outcome of `_delete_iscsi_export_tgtadm`: normal return, a re-raised
    `ProcessExecutionError`, or the `NovaException` naming the stuck tid. -/
inductive DeleteOutcome where
  | ok
  | procError (exitCode : Nat)
  | consistencyError (tid : Nat)
  deriving DecidableEq

/-- `_delete_iscsi_export_tgtadm(tid)`.  The logical-unit delete and the
    target delete are both always issued and their failures are each caught
    and discarded (`try/except ProcessExecutionError: pass`), so they appear
    in the trace but the outcome depends only on the final `show --tid`:
    exit code 22 there means the tid is gone and the call returns; any other
    failure is re-raised; success means the delete silently failed and the
    `NovaException` naming the tid is raised. -/
def deleteIscsiExportTgtadm (env : TgtEnv) (tid : Nat) : List TCmd × DeleteOutcome :=
  ([TCmd.deleteLun tid, TCmd.deleteTarget tid, TCmd.showTarget tid],
   match env.exec (TCmd.showTarget tid) with
   | ExecResult.ok => DeleteOutcome.consistencyError tid
   | ExecResult.fail c => if c = 22 then DeleteOutcome.ok else DeleteOutcome.procError c)

/-- An external call recorded in an attach/detach trace: a dispatcher
    invocation (`_volume_driver_method`) or an administrative command. -/
inductive Event where
  | dispatchConnect (mountDevice : List Char)
  | dispatchDisconnect (mountDevice : List Char)
  | admin (c : TCmd)
  deriving DecidableEq

def Event.isDisconnect : Event → Bool
  | Event.dispatchDisconnect _ => true
  | _ => false

def Event.bindAddr : Event → Option (List Char)
  | Event.admin (TCmd.bindInitiator _ a) => some a
  | _ => none

/-- Python `mountpoint.rpartition("/")[2]`: the text after the last slash,
    or the whole string when there is none. -/
def afterLastSlash (l : List Char) : List Char :=
  (l.reverse.takeWhile (fun c => !(c == '/'))).reverse

/-- Inputs of `LibvirtVolumeDriver.attach_volume`, with the database lookups
    and configuration resolved: the PXE ip row found for the node (if any),
    the `use_unsafe_iscsi` flag, the device path reported by the transport
    sub-driver, and whether `connection_info['driver_volume_type']` is a key
    of `self.volume_drivers`. -/
structure AttachIn where
  instanceUuid : List Char
  instanceName : List Char
  mountpoint : List Char
  iqnPrefix : List Char
  pxeIp : Option (List Char)
  useUnsafeIscsi : Bool
  devicePath : List Char
  knownDriverType : Bool

inductive AttachOutcome where
  | ok
  | policyError (instanceUuid : List Char)
  | driverNotFound
  | procError (exitCode : Nat)
  deriving DecidableEq

/-- The initiator address passed to the access bind: the PXE address when a
    row was found, the literal `ALL` otherwise. -/
def bindAddress : Option (List Char) → List Char
  | some a => a
  | none => "ALL".data

/-- `attach_volume` after the PXE-address policy check: connect the device
    through the dispatcher, compute the next tid (`_get_next_tid` issues a
    `show`), create target and logical unit, then bind the initiator
    address.  Execution stops at the first failing command, whose
    `ProcessExecutionError` propagates. -/
def attachAfterCheck (env : TgtEnv) (inp : AttachIn) : List Event × AttachOutcome :=
  if inp.knownDriverType then
    match env.exec TCmd.showAll with
    | ExecResult.fail c =>
        ([Event.dispatchConnect (afterLastSlash inp.mountpoint), Event.admin TCmd.showAll],
         AttachOutcome.procError c)
    | ExecResult.ok =>
      match env.exec (TCmd.newTarget (getNextTid env.statusText)
          (getIqn inp.iqnPrefix inp.instanceName inp.mountpoint)) with
      | ExecResult.fail c =>
          ([Event.dispatchConnect (afterLastSlash inp.mountpoint), Event.admin TCmd.showAll,
            Event.admin (TCmd.newTarget (getNextTid env.statusText)
              (getIqn inp.iqnPrefix inp.instanceName inp.mountpoint))],
           AttachOutcome.procError c)
      | ExecResult.ok =>
        match env.exec (TCmd.newLun (getNextTid env.statusText) inp.devicePath) with
        | ExecResult.fail c =>
            ([Event.dispatchConnect (afterLastSlash inp.mountpoint), Event.admin TCmd.showAll,
              Event.admin (TCmd.newTarget (getNextTid env.statusText)
                (getIqn inp.iqnPrefix inp.instanceName inp.mountpoint)),
              Event.admin (TCmd.newLun (getNextTid env.statusText) inp.devicePath)],
             AttachOutcome.procError c)
        | ExecResult.ok =>
          match env.exec (TCmd.bindInitiator (getNextTid env.statusText)
              (bindAddress inp.pxeIp)) with
          | ExecResult.fail c =>
              ([Event.dispatchConnect (afterLastSlash inp.mountpoint), Event.admin TCmd.showAll,
                Event.admin (TCmd.newTarget (getNextTid env.statusText)
                  (getIqn inp.iqnPrefix inp.instanceName inp.mountpoint)),
                Event.admin (TCmd.newLun (getNextTid env.statusText) inp.devicePath),
                Event.admin (TCmd.bindInitiator (getNextTid env.statusText)
                  (bindAddress inp.pxeIp))],
               AttachOutcome.procError c)
          | ExecResult.ok =>
              ([Event.dispatchConnect (afterLastSlash inp.mountpoint), Event.admin TCmd.showAll,
                Event.admin (TCmd.newTarget (getNextTid env.statusText)
                  (getIqn inp.iqnPrefix inp.instanceName inp.mountpoint)),
                Event.admin (TCmd.newLun (getNextTid env.statusText) inp.devicePath),
                Event.admin (TCmd.bindInitiator (getNextTid env.statusText)
                  (bindAddress inp.pxeIp))],
               AttachOutcome.ok)
  else ([Event.dispatchConnect (afterLastSlash inp.mountpoint)], AttachOutcome.driverNotFound)

/-- `LibvirtVolumeDriver.attach_volume`: when no PXE ip row was found and
    `use_unsafe_iscsi` is off, the `NovaException` is raised before anything
    else happens; otherwise the export sequence runs. -/
def attachVolume (env : TgtEnv) (inp : AttachIn) : List Event × AttachOutcome :=
  match inp.pxeIp, inp.useUnsafeIscsi with
  | none, false => ([], AttachOutcome.policyError inp.instanceUuid)
  | _, _ => attachAfterCheck env inp

/-- Inputs of `LibvirtVolumeDriver.detach_volume`, analogous to `AttachIn`. -/
structure DetachIn where
  instanceName : List Char
  mountpoint : List Char
  iqnPrefix : List Char
  knownDriverType : Bool

inductive DetachOutcome where
  | ok
  | procError (exitCode : Nat)
  | consistencyError (tid : Nat)
  | driverNotFound
  deriving DecidableEq

def liftDelete : DeleteOutcome → DetachOutcome
  | DeleteOutcome.ok => DetachOutcome.ok
  | DeleteOutcome.procError c => DetachOutcome.procError c
  | DeleteOutcome.consistencyError t => DetachOutcome.consistencyError t

/-- The try-block of `detach_volume`: `_find_tid` issues a `show`; when the
    tid is found the export is deleted, otherwise a warning is logged and
    nothing is raised.  The middle component records whether the not-found
    warning was logged. -/
def detachTry (env : TgtEnv) (inp : DetachIn) : List Event × Bool × DetachOutcome :=
  match env.exec TCmd.showAll with
  | ExecResult.fail c => ([Event.admin TCmd.showAll], false, DetachOutcome.procError c)
  | ExecResult.ok =>
    match findTid (getIqn inp.iqnPrefix inp.instanceName inp.mountpoint) env.statusText with
    | some tid =>
        (Event.admin TCmd.showAll :: (deleteIscsiExportTgtadm env tid).1.map Event.admin,
         false, liftDelete (deleteIscsiExportTgtadm env tid).2)
    | none => ([Event.admin TCmd.showAll], true, DetachOutcome.ok)

/-- `LibvirtVolumeDriver.detach_volume`: the try-block above, then — in a
    `finally` — the dispatcher-routed device disconnect, which runs on every
    exit path; a `VolumeDriverNotFound` raised there supersedes any
    exception in flight, as in Python. -/
def detachVolume (env : TgtEnv) (inp : DetachIn) : List Event × Bool × DetachOutcome :=
  ((detachTry env inp).1 ++ [Event.dispatchDisconnect (afterLastSlash inp.mountpoint)],
   (detachTry env inp).2.1,
   if inp.knownDriverType then (detachTry env inp).2.2 else DetachOutcome.driverNotFound)

/-- The dictionary returned by `get_volume_connector`: exactly the keys
    `ip`, `initiator` and `host`. -/
structure Connector where
  ip : List Char
  initiator : Option (List Char)
  host : List Char
  deriving DecidableEq

/-- Python truthiness of the cached `self._initiator`: falsy when it is
    `None` or the empty string. -/
def strFalsy : Option (List Char) → Bool
  | none => true
  | some s => s.isEmpty

/-- Result of one `get_volume_connector` call: the new cached initiator,
    whether `get_iscsi_initiator` was invoked, whether the warning was
    logged, and the returned connector. -/
structure ConnectorResult where
  newState : Option (List Char)
  discoveryInvoked : Bool
  warned : Bool
  connector : Connector
  deriving DecidableEq

/-- `VolumeDriver.get_volume_connector`, with the cached `self._initiator`
    threaded explicitly and `disc` the value `get_iscsi_initiator` would
    return if invoked on this call. -/
def getVolumeConnector (st disc : Option (List Char)) (myIp host : List Char) :
    ConnectorResult :=
  if strFalsy st then
    ConnectorResult.mk disc true (strFalsy disc) (Connector.mk myIp disc host)
  else
    ConnectorResult.mk st false false (Connector.mk myIp st host)

/-- Concrete environments and inputs used by the witnesses. -/
def envAllOk : TgtEnv := TgtEnv.mk (fun _ => ExecResult.ok) []

def envShow22 : TgtEnv :=
  TgtEnv.mk (fun c => match c with
    | TCmd.showTarget _ => ExecResult.fail 22
    | _ => ExecResult.ok) []

def envShowFail2 : TgtEnv :=
  TgtEnv.mk (fun c => match c with
    | TCmd.showTarget _ => ExecResult.fail 2
    | _ => ExecResult.ok) []

def inpNoPxe : AttachIn :=
  AttachIn.mk "u1".data "vm1".data "/dev/vdb".data "iqn.test".data none false
    "/dev/loop0".data true

def inpPxe : AttachIn :=
  AttachIn.mk "u1".data "vm1".data "/dev/vdb".data "iqn.test".data
    (some "10.0.0.1".data) false "/dev/loop0".data true

def inpDetach : DetachIn := DetachIn.mk "vm1".data "/dev/vdb".data "iqn.test".data true

/-! Basic lemmas about the character-list helpers. -/

theorem isPref_append_self (l r : List Char) : isPref l (l ++ r) = true := by
  induction l with
  | nil => rfl
  | cons a as ih => simp [isPref, ih]

theorem drop_length_append (a b : List Char) : (a ++ b).drop a.length = b := by
  induction a with
  | nil => rfl
  | cons x xs ih => simp [ih]

theorem splitLines_single (l : List Char) (h : '\n' ∉ l) : splitLines l = [l] := by
  induction l with
  | nil => rfl
  | cons c cs ih =>
      have hc : ¬ c = '\n' := by
        intro e
        subst e
        exact h (List.mem_cons_self _ _)
      have hcs : '\n' ∉ cs := fun m => h (List.mem_cons_of_mem _ m)
      simp [splitLines, hc, ih hcs, consHead]

theorem takeWhile_digits (ds r : List Char) (h : ∀ c ∈ ds, Char.isDigit c = true) :
    (ds ++ ':' :: r).takeWhile Char.isDigit = ds := by
  induction ds with
  | nil => simp [List.takeWhile_cons, show Char.isDigit ':' = false by decide]
  | cons a as ih =>
      have ha : Char.isDigit a = true := h a (List.mem_cons_self a as)
      have h' : ∀ c ∈ as, Char.isDigit c = true := fun c hc => h c (List.mem_cons_of_mem a hc)
      simp [List.takeWhile_cons, ha, ih h']

theorem dropWhile_digits (ds r : List Char) (h : ∀ c ∈ ds, Char.isDigit c = true) :
    (ds ++ ':' :: r).dropWhile Char.isDigit = ':' :: r := by
  induction ds with
  | nil => simp [List.dropWhile_cons, show Char.isDigit ':' = false by decide]
  | cons a as ih =>
      have ha : Char.isDigit a = true := h a (List.mem_cons_self a as)
      have h' : ∀ c ∈ as, Char.isDigit c = true := fun c hc => h c (List.mem_cons_of_mem a hc)
      simp [List.dropWhile_cons, ha, ih h']

theorem parseTargetHeader_mk (ds after : List Char) (hne : ds ≠ [])
    (hd : ∀ c ∈ ds, Char.isDigit c = true) :
    parseTargetHeader (targetPat ++ (ds ++ ':' :: after)) = some (digitsToNat ds, after) := by
  unfold parseTargetHeader
  rw [isPref_append_self, if_pos rfl, drop_length_append]
  simp [tidOfRest, takeWhile_digits ds after hd, dropWhile_digits ds after hd, hne]

/-! The allocator: `_get_next_tid`. -/

theorem nextTidLoop_eq (ls : List (List Char)) :
    ∀ a : Nat, nextTidLoop ls a =
      Nat.max a (natListMax (ls.filterMap (fun l => (parseTargetHeader l).map Prod.fst))) := by
  induction ls with
  | nil => intro a; simp [nextTidLoop, natListMax]
  | cons l ls ih =>
      intro a
      cases h : parseTargetHeader l with
      | none => simp [nextTidLoop, h, ih]
      | some p =>
          obtain ⟨t, r⟩ := p
          have e : (if a < t then t else a) = Nat.max a t := by
            rcases Nat.lt_or_ge a t with h1 | h1
            · simp [h1, Nat.max_eq_right (Nat.le_of_lt h1)]
            · simp [Nat.not_lt.mpr h1, Nat.max_eq_left h1]
          simp [nextTidLoop, h, ih, e, natListMax, Nat.max_assoc]

/-- Claim C4: for every status text, `_get_next_tid` returns one greater
    than the maximum target id appearing in lines matching the header
    pattern `^Target (\d+):`, and returns 1 when no line matches. -/
theorem getNextTid_spec (out : List Char) :
    getNextTid out = natListMax (headerTids out) + 1 ∧
      (headerTids out = [] → getNextTid out = 1) := by
  have h : getNextTid out = natListMax (headerTids out) + 1 := by
    have h2 := nextTidLoop_eq (splitLines out) 0
    simp [getNextTid, headerTids, h2, Nat.zero_max]
  exact ⟨h, fun he => by simp [h, he, natListMax]⟩

/-- Witness for C4 at concrete inputs: headers 3 and 7 give 8; a status
    text with no header line gives 1. -/
theorem getNextTid_spec_witness :
    getNextTid "Target 3: x\nTarget 7: y".data = 8 ∧
      getNextTid "System information:".data = 1 :=
  ⟨by decide, (getNextTid_spec "System information:".data).2 (by decide)⟩

/-! The parser: `_list_backingstore_path`. -/

theorem lbLoop_eq (ls : List (List Char)) :
    lbLoop ls = (ls.filterMap backingLine).filter (fun v => v.contains '/') := by
  induction ls with
  | nil => rfl
  | cons l ls ih =>
      cases h : backingLine l with
      | none => simp [lbLoop, h, ih]
      | some v =>
          cases hc : v.contains '/' <;>
            simp [lbLoop, h, hc, ih, List.filter_cons]

/-- Claim C8: the backing-store list is exactly the captured values of
    lines containing `Backing store path: `, in line order, keeping only
    values that contain a slash; every status text is parsed totally, and at
    the concrete example the placeholder `None` is filtered out. -/
theorem listBackingstorePath_spec (out : List Char) :
    listBackingstorePath out =
        ((splitLines out).filterMap backingLine).filter (fun v => v.contains '/') ∧
      listBackingstorePath "Backing store path: /dev/x\nBacking store path: None".data =
        ["/dev/x".data] :=
  ⟨lbLoop_eq (splitLines out), by decide⟩

/-! The allocator: `_get_iqn`. -/

theorem pyReplaceSlash_eq_map (m : List Char) :
    pyReplaceSlash m = m.map (fun c => if c = '/' then '-' else c) := by
  induction m with
  | nil => rfl
  | cons c cs ih => simp [pyReplaceSlash, ih]

/-- Claim C7: `_get_iqn` returns `<prefix>:<instanceName>-<normalized>`
    where the normalized mount point replaces every slash by a hyphen and
    strips leading/trailing hyphens; at the concrete example it yields
    `iqn.test:vm1-dev-vdb`. -/
theorem getIqn_compose :
    (∀ p n m, getIqn p n m =
        p ++ ':' :: (n ++ '-' :: pyStripDash (m.map (fun c => if c = '/' then '-' else c)))) ∧
      getIqn "iqn.test".data "vm1".data "/dev/vdb".data = "iqn.test:vm1-dev-vdb".data :=
  ⟨fun p n m => by simp [getIqn, pyReplaceSlash_eq_map], by decide⟩

/-! The allocator: `_find_tid`.  The regex `^Target (\d+): *<escaped iqn>`
    matches any header whose name merely STARTS with the iqn, which is what
    the equivalence below and the counterexample make precise. -/

theorem matchSpaces_iff (iqn : List Char) :
    ∀ rest : List Char, matchIqnAfterSpaces iqn rest = true ↔
      ∃ k, k ≤ rest.length ∧ ((rest.take k).all (fun c => c == ' ')) = true ∧
        isPref iqn (rest.drop k) = true := by
  intro rest
  induction rest with
  | nil =>
      constructor
      · intro h
        exact ⟨0, Nat.le_refl 0, rfl, h⟩
      · rintro ⟨k, _, _, hp⟩
        rw [List.drop_nil] at hp
        exact hp
  | cons c rs ih =>
      constructor
      · intro h
        simp only [matchIqnAfterSpaces] at h
        rw [Bool.or_eq_true] at h
        rcases h with h1 | h1
        · exact ⟨0, Nat.zero_le _, rfl, h1⟩
        · rw [Bool.and_eq_true] at h1
          obtain ⟨hc, hm⟩ := h1
          obtain ⟨j, hj, hall, hp⟩ := ih.mp hm
          refine ⟨j + 1, Nat.succ_le_succ hj, ?_, ?_⟩
          · simp [List.take_succ_cons, List.all_cons, hc, hall]
          · rw [List.drop_succ_cons]
            exact hp
      · rintro ⟨k, hk, hall, hp⟩
        simp only [matchIqnAfterSpaces]
        rw [Bool.or_eq_true]
        cases k with
        | zero =>
            left
            exact hp
        | succ j =>
            right
            simp only [List.take_succ_cons, List.all_cons, Bool.and_eq_true] at hall
            obtain ⟨hc, hall2⟩ := hall
            rw [List.drop_succ_cons] at hp
            rw [Bool.and_eq_true]
            exact ⟨hc, ih.mpr ⟨j, Nat.le_of_succ_le_succ hk, hall2, hp⟩⟩

theorem prefixMatchAfter_iff (iqn rest : List Char) :
    prefixMatchAfter iqn rest = true ↔
      ∃ k, k ≤ rest.length ∧ ((rest.take k).all (fun c => c == ' ')) = true ∧
        isPref iqn (rest.drop k) = true := by
  rw [prefixMatchAfter, List.any_eq_true]
  constructor
  · rintro ⟨k, hk, hf⟩
    rw [List.mem_range] at hk
    rw [Bool.and_eq_true] at hf
    obtain ⟨h1, h2⟩ := hf
    exact ⟨k, Nat.lt_succ_iff.mp hk, h1, h2⟩
  · rintro ⟨k, hk, h1, h2⟩
    refine ⟨k, List.mem_range.mpr (Nat.lt_succ_iff.mpr hk), ?_⟩
    rw [Bool.and_eq_true]
    exact ⟨h1, h2⟩

theorem matchSpaces_eq_spec (iqn rest : List Char) :
    matchIqnAfterSpaces iqn rest = prefixMatchAfter iqn rest := by
  have h := (matchSpaces_iff iqn rest).trans (prefixMatchAfter_iff iqn rest).symm
  cases hm : matchIqnAfterSpaces iqn rest with
  | true => exact (h.mp hm).symm
  | false =>
      cases hp : prefixMatchAfter iqn rest with
      | true =>
          have h2 := h.mpr hp
          rw [hm] at h2
          exact absurd h2 (by simp)
      | false => rfl

theorem matchSpaces_self (a b : List Char) : matchIqnAfterSpaces a (a ++ b) = true := by
  cases ha : a ++ b with
  | nil =>
      obtain ⟨h1, h2⟩ := List.append_eq_nil.mp ha
      subst h1
      subst h2
      rfl
  | cons c rs =>
      have h2 : isPref a (c :: rs) = true := by
        rw [← ha]
        exact isPref_append_self a b
      simp [matchIqnAfterSpaces, h2]

theorem findTidLines_eq (iqn : List Char) :
    ∀ ls : List (List Char), findTidLines iqn ls =
      ((ls.filterMap parseTargetHeader).find? (fun q => prefixMatchAfter iqn q.2)).map
        Prod.fst := by
  intro ls
  induction ls with
  | nil => rfl
  | cons l ls ih =>
      cases h : parseTargetHeader l with
      | none => simp [findTidLines, h, ih, List.filterMap_cons]
      | some q =>
          obtain ⟨t, aft⟩ := q
          simp only [List.filterMap_cons, h]
          cases hm : matchIqnAfterSpaces iqn aft with
          | true =>
              have hp : (fun q : Nat × List Char => prefixMatchAfter iqn q.2) (t, aft)
                  = true := by
                show prefixMatchAfter iqn aft = true
                rw [← matchSpaces_eq_spec]
                exact hm
              rw [@List.find?_cons_of_pos (Nat × List Char)
                (fun q => prefixMatchAfter iqn q.2) (t, aft)
                (List.filterMap parseTargetHeader ls) hp]
              simp [findTidLines, h, hm]
          | false =>
              have hp : ¬ (fun q : Nat × List Char => prefixMatchAfter iqn q.2) (t, aft)
                  = true := by
                show ¬ prefixMatchAfter iqn aft = true
                rw [← matchSpaces_eq_spec]
                simp [hm]
              rw [@List.find?_cons_of_neg (Nat × List Char)
                (fun q => prefixMatchAfter iqn q.2) (t, aft)
                (List.filterMap parseTargetHeader ls) hp]
              simp [findTidLines, h, hm, ih]

/-- Claim C5 (amended): `_find_tid` returns the id of the first header
    record whose target name, after the colon and any blanks, has the given
    iqn as an initial segment (not: equals the iqn), and returns `none`
    (not an error) when no record matches; the round-trip holds — a status
    text reflecting a create of `composeIqn(p,i,m)` under some target id
    makes `_find_tid` return exactly that id. -/
theorem findTid_prefixMatch :
    (∀ iqn out, findTid iqn out = findTidPrefixSpec iqn out) ∧
      (∀ pfx name mp ds rest, ds ≠ [] → (∀ c ∈ ds, Char.isDigit c = true) →
        '\n' ∉ getIqn pfx name mp → '\n' ∉ rest →
        findTid (getIqn pfx name mp)
            (targetPat ++ (ds ++ ':' :: ' ' :: (getIqn pfx name mp ++ rest))) =
          some (digitsToNat ds)) := by
  constructor
  · intro iqn out
    rw [findTid, findTidPrefixSpec, findTidLines_eq]
  · intro pfx name mp ds rest hne hd hiqn hrest
    have hds : '\n' ∉ ds := fun hm => absurd (hd _ hm) (by decide)
    have hline : '\n' ∉ targetPat ++ (ds ++ ':' :: ' ' :: (getIqn pfx name mp ++ rest)) := by
      intro hm
      rcases List.mem_append.mp hm with h | h
      · exact absurd h (by decide)
      · rcases List.mem_append.mp h with h | h
        · exact hds h
        · rcases List.mem_cons.mp h with h | h
          · exact absurd h (by decide)
          · rcases List.mem_cons.mp h with h | h
            · exact absurd h (by decide)
            · rcases List.mem_append.mp h with h | h
              · exact hiqn h
              · exact hrest h
    have hm : matchIqnAfterSpaces (getIqn pfx name mp)
        (' ' :: (getIqn pfx name mp ++ rest)) = true := by
      simp [matchIqnAfterSpaces, matchSpaces_self]
    rw [findTid, splitLines_single _ hline]
    simp [findTidLines,
      parseTargetHeader_mk ds (' ' :: (getIqn pfx name mp ++ rest)) hne hd, hm]

/-- Witness for C5 at a concrete input: the header line
    `Target 12: iqn.test:vm1-dev-vdb` is found again under id 12. -/
theorem findTid_prefixMatch_witness :
    findTid (getIqn "iqn.test".data "vm1".data "/dev/vdb".data)
        (targetPat ++ ("12".data ++ ':' :: ' ' ::
          (getIqn "iqn.test".data "vm1".data "/dev/vdb".data ++ []))) = some 12 := by
  have h := findTid_prefixMatch.2 "iqn.test".data "vm1".data "/dev/vdb".data "12".data []
    (by decide) (by decide) (by decide) (by decide)
  exact h.trans (by decide)

/-- Claim C5 counterexample: on status text `Target 3: ab-extra` with iqn
    `ab`, `_find_tid` returns 3 although no header record's target name
    equals `ab` — the regex accepts any name extending the iqn. -/
theorem findTid_equals_counterexample :
    findTid "ab".data "Target 3: ab-extra".data = some 3 ∧
      findTidEqualsSpec "ab".data "Target 3: ab-extra".data = none ∧
      ∀ q ∈ (splitLines "Target 3: ab-extra".data).filterMap parseTargetHeader,
        targetNameOf q.2 ≠ "ab".data := by
  refine ⟨by decide, by decide, ?_⟩
  decide

/-! The allocator: uniqueness of composed iqns (`_get_iqn`). -/

theorem append_cancel_left_chars (p : List Char) :
    ∀ x y : List Char, p ++ x = p ++ y → x = y := by
  induction p with
  | nil => intro x y h; exact h
  | cons a as ih =>
      intro x y h
      rw [List.cons_append, List.cons_append] at h
      injection h with _ h2
      exact ih x y h2

theorem noDash_append_inj :
    ∀ n1 n2 s1 s2 : List Char, '-' ∉ n1 → '-' ∉ n2 →
      n1 ++ '-' :: s1 = n2 ++ '-' :: s2 → n1 = n2 ∧ s1 = s2 := by
  intro n1
  induction n1 with
  | nil =>
      intro n2 s1 s2 _ h2 h
      cases n2 with
      | nil =>
          rw [List.nil_append, List.nil_append] at h
          injection h with _ ht
          exact ⟨rfl, ht⟩
      | cons b bs =>
          rw [List.nil_append, List.cons_append] at h
          injection h with hb _
          refine absurd ?_ h2
          rw [hb]
          exact List.mem_cons_self b bs
  | cons a as ih =>
      intro n2 s1 s2 h1 h2 h
      cases n2 with
      | nil =>
          rw [List.cons_append, List.nil_append] at h
          injection h with hb _
          refine absurd ?_ h1
          rw [← hb]
          exact List.mem_cons_self a as
      | cons b bs =>
          rw [List.cons_append, List.cons_append] at h
          injection h with hb ht
          have h1' : '-' ∉ as := fun m => h1 (List.mem_cons_of_mem a m)
          have h2' : '-' ∉ bs := fun m => h2 (List.mem_cons_of_mem b m)
          obtain ⟨e1, e2⟩ := ih bs s1 s2 h1' h2' ht
          subst e1
          exact ⟨by rw [hb], e2⟩

/-- Claim C6 counterexample: the pairs (`vm1`, `/dev/vdb`) and
    (`vm1`, `-dev-vdb`) are distinct yet compose to the same iqn — the
    mount-point normalization is not injective, so neither is the
    composition. -/
theorem getIqn_not_injective :
    ("/dev/vdb".data ≠ "-dev-vdb".data) ∧
      getIqn "iqn.test".data "vm1".data "/dev/vdb".data =
        getIqn "iqn.test".data "vm1".data "-dev-vdb".data := by
  refine ⟨by decide, by decide⟩

/-- Claim C6 (amended): for a fixed prefix and hyphen-free instance names,
    two iqns composed by `_get_iqn` are equal exactly when the instance
    names are equal and the normalized mount points are equal; so iqns are
    distinct whenever instance names or normalized mount points differ, but
    mount points that normalize alike (and hyphenated instance names) can
    collide. -/
theorem getIqn_injective_amended (pfx n1 m1 n2 m2 : List Char)
    (h1 : '-' ∉ n1) (h2 : '-' ∉ n2) :
    getIqn pfx n1 m1 = getIqn pfx n2 m2 ↔
      n1 = n2 ∧ pyStripDash (pyReplaceSlash m1) = pyStripDash (pyReplaceSlash m2) := by
  constructor
  · intro h
    unfold getIqn at h
    have h3 := append_cancel_left_chars pfx _ _ h
    injection h3 with _ h4
    exact noDash_append_inj n1 n2 _ _ h1 h2 h4
  · rintro ⟨rfl, e⟩
    unfold getIqn
    rw [e]

/-- Witness for C6 at concrete inputs: with hyphen-free instance names,
    differing normalized mount points force differing iqns. -/
theorem getIqn_injective_amended_witness :
    getIqn "iqn.test".data "vm1".data "/dev/vda".data ≠
      getIqn "iqn.test".data "vm1".data "/dev/vdb".data := by
  intro h
  have h2 := (getIqn_injective_amended "iqn.test".data "vm1".data "/dev/vda".data
      "vm1".data "/dev/vdb".data (by decide) (by decide)).mp h
  exact absurd h2.2 (by decide)

/-! The lifecycle controller: `_delete_iscsi_export_tgtadm`. -/

/-- Claim C1 (amended): the final show for the deleted tid is always
    issued, after the two delete commands; an execution failure with exit
    code 22 is the sole outcome that returns normally; the show succeeding
    raises the fatal consistency error naming the tid; any other execution
    failure of the show is re-raised as an execution error (not as the
    consistency error); and the outcome depends only on the final check —
    the delete-logical-unit and delete-target failures are each absorbed. -/
theorem deleteExport_finalCheck (env : TgtEnv) (tid : Nat) :
    (deleteIscsiExportTgtadm env tid).1 =
        [TCmd.deleteLun tid, TCmd.deleteTarget tid, TCmd.showTarget tid] ∧
      ((deleteIscsiExportTgtadm env tid).2 = DeleteOutcome.ok ↔
        env.exec (TCmd.showTarget tid) = ExecResult.fail 22) ∧
      (env.exec (TCmd.showTarget tid) = ExecResult.ok →
        (deleteIscsiExportTgtadm env tid).2 = DeleteOutcome.consistencyError tid) ∧
      (∀ c, c ≠ 22 → env.exec (TCmd.showTarget tid) = ExecResult.fail c →
        (deleteIscsiExportTgtadm env tid).2 = DeleteOutcome.procError c) ∧
      (∀ env2 : TgtEnv, env2.exec (TCmd.showTarget tid) = env.exec (TCmd.showTarget tid) →
        deleteIscsiExportTgtadm env2 tid = deleteIscsiExportTgtadm env tid) := by
  refine ⟨rfl, ?_, ?_, ?_, ?_⟩
  · cases h : env.exec (TCmd.showTarget tid) with
    | ok => simp [deleteIscsiExportTgtadm, h]
    | fail c =>
        by_cases hc : c = 22
        · subst hc
          simp [deleteIscsiExportTgtadm, h]
        · simp [deleteIscsiExportTgtadm, h, hc]
  · intro h
    simp [deleteIscsiExportTgtadm, h]
  · intro c hc h
    simp [deleteIscsiExportTgtadm, h, hc]
  · intro env2 he
    simp [deleteIscsiExportTgtadm, he]

/-- Witness for C1: with a daemon whose show for the tid exits 22,
    the delete call returns normally. -/
theorem deleteExport_finalCheck_witness :
    (deleteIscsiExportTgtadm envShow22 5).2 = DeleteOutcome.ok :=
  (deleteExport_finalCheck envShow22 5).2.1.mpr rfl

/-- Claim C1 counterexample: when the final show fails with exit code 2
    (not 22), the call re-raises that execution failure; it does not raise
    the consistency error naming the tid, contrary to the claim that any
    outcome other than exit 22 does. -/
theorem deleteExport_counterexample :
    (deleteIscsiExportTgtadm envShowFail2 7).2 = DeleteOutcome.procError 2 ∧
      ∀ t, (deleteIscsiExportTgtadm envShowFail2 7).2 ≠ DeleteOutcome.consistencyError t := by
  refine ⟨rfl, ?_⟩
  intro t h
  exact DeleteOutcome.noConfusion
    (show DeleteOutcome.procError 2 = DeleteOutcome.consistencyError t from h)

/-! The lifecycle controller: `attach_volume`. -/

/-- Claim C2: on an attach with no PXE ip row and the unsafe flag off, the
    policy error naming the instance is raised with an empty trace — no
    TargetAdmin command and no dispatcher connect were issued, for any
    daemon environment, so the daemon state is untouched. -/
theorem attach_policyCheck (env : TgtEnv) (inp : AttachIn)
    (h1 : inp.pxeIp = none) (h2 : inp.useUnsafeIscsi = false) :
    attachVolume env inp = ([], AttachOutcome.policyError inp.instanceUuid) := by
  simp [attachVolume, h1, h2]

/-- Witness for C2 at concrete inputs. -/
theorem attach_policyCheck_witness :
    attachVolume envAllOk inpNoPxe = ([], AttachOutcome.policyError "u1".data) :=
  attach_policyCheck envAllOk inpNoPxe rfl rfl

theorem attachAfterCheck_bind (env : TgtEnv) (inp : AttachIn) :
    (attachAfterCheck env inp).1.filterMap Event.bindAddr = [] ∨
      (attachAfterCheck env inp).1.filterMap Event.bindAddr = [bindAddress inp.pxeIp] := by
  cases hk : inp.knownDriverType with
  | false => left; simp [attachAfterCheck, hk, Event.bindAddr]
  | true =>
      cases h1 : env.exec TCmd.showAll with
      | fail c => left; simp [attachAfterCheck, hk, h1, Event.bindAddr]
      | ok =>
          cases h2 : env.exec (TCmd.newTarget (getNextTid env.statusText)
              (getIqn inp.iqnPrefix inp.instanceName inp.mountpoint)) with
          | fail c => left; simp [attachAfterCheck, hk, h1, h2, Event.bindAddr]
          | ok =>
              cases h3 : env.exec (TCmd.newLun (getNextTid env.statusText)
                  inp.devicePath) with
              | fail c => left; simp [attachAfterCheck, hk, h1, h2, h3, Event.bindAddr]
              | ok =>
                  cases h4 : env.exec (TCmd.bindInitiator (getNextTid env.statusText)
                      (bindAddress inp.pxeIp)) with
                  | fail c =>
                      right
                      simp [attachAfterCheck, hk, h1, h2, h3, h4, Event.bindAddr]
                  | ok =>
                      right
                      simp [attachAfterCheck, hk, h1, h2, h3, h4, Event.bindAddr]

theorem attachAfterCheck_bind_ok (env : TgtEnv) (inp : AttachIn)
    (hk : inp.knownDriverType = true) (hok : ∀ c, env.exec c = ExecResult.ok) :
    (attachAfterCheck env inp).1.filterMap Event.bindAddr = [bindAddress inp.pxeIp] := by
  simp [attachAfterCheck, hk, hok, Event.bindAddr]

theorem attachVolume_bind (env : TgtEnv) (inp : AttachIn) :
    (attachVolume env inp).1.filterMap Event.bindAddr = [] ∨
      (attachVolume env inp).1.filterMap Event.bindAddr = [bindAddress inp.pxeIp] := by
  rw [attachVolume]
  rcases hp : inp.pxeIp with _ | x <;> cases hu : inp.useUnsafeIscsi
  · left
    rfl
  · have h := attachAfterCheck_bind env inp
    rw [hp] at h
    exact h
  · have h := attachAfterCheck_bind env inp
    rw [hp] at h
    exact h
  · have h := attachAfterCheck_bind env inp
    rw [hp] at h
    exact h

/-- Claim C9: every access bind issued by an attach call carries exactly
    `bindAddress` of the PXE lookup — the dedicated address when one was
    found, the literal `ALL` when none was (unsafe mode); and an attach
    that passes the policy check with a known transport type and a
    fault-free daemon does issue exactly one such bind. -/
theorem attach_bindAddress (env : TgtEnv) (inp : AttachIn) :
    (∀ a, a ∈ (attachVolume env inp).1.filterMap Event.bindAddr →
        a = bindAddress inp.pxeIp) ∧
      (¬(inp.pxeIp = none ∧ inp.useUnsafeIscsi = false) → inp.knownDriverType = true →
        (∀ c, env.exec c = ExecResult.ok) →
        (attachVolume env inp).1.filterMap Event.bindAddr = [bindAddress inp.pxeIp]) ∧
      bindAddress none = "ALL".data ∧ (∀ a, bindAddress (some a) = a) := by
  refine ⟨?_, ?_, rfl, fun a => rfl⟩
  · intro a ha
    rcases attachVolume_bind env inp with h | h <;> rw [h] at ha
    · simp at ha
    · simp at ha
      exact ha
  · intro hnp hk hok
    rw [attachVolume]
    rcases hp : inp.pxeIp with _ | x <;> cases hu : inp.useUnsafeIscsi
    · exact absurd ⟨hp, hu⟩ hnp
    · have h := attachAfterCheck_bind_ok env inp hk hok
      rw [hp] at h
      exact h
    · have h := attachAfterCheck_bind_ok env inp hk hok
      rw [hp] at h
      exact h
    · have h := attachAfterCheck_bind_ok env inp hk hok
      rw [hp] at h
      exact h

/-- Witness for C9: with a PXE address present and a fault-free daemon, the
    single bind carries exactly that address. -/
theorem attach_bindAddress_witness :
    (attachVolume envAllOk inpPxe).1.filterMap Event.bindAddr = ["10.0.0.1".data] := by
  have h := (attach_bindAddress envAllOk inpPxe).2.1 (by simp [inpPxe]) rfl (fun c => rfl)
  simpa [inpPxe, bindAddress] using h

/-! The lifecycle controller: `detach_volume`. -/

theorem countP_disconnect_map_admin (l : List TCmd) :
    (l.map Event.admin).countP Event.isDisconnect = 0 := by
  induction l with
  | nil => rfl
  | cons c cs ih => simp [List.countP_cons, Event.isDisconnect, ih]

theorem detachTry_no_disconnect (env : TgtEnv) (inp : DetachIn) :
    (detachTry env inp).1.countP Event.isDisconnect = 0 := by
  rw [detachTry]
  cases h1 : env.exec TCmd.showAll with
  | fail c => simp [List.countP_cons, Event.isDisconnect]
  | ok =>
      cases h2 : findTid (getIqn inp.iqnPrefix inp.instanceName inp.mountpoint)
          env.statusText with
      | none => simp [List.countP_cons, Event.isDisconnect]
      | some tid =>
          simp [List.countP_cons, Event.isDisconnect, countP_disconnect_map_admin]

/-- Claim C3: every detach call invokes the dispatcher-routed device
    disconnect exactly once, whatever the daemon does — target found and
    deleted, target found and deletion raising, or target not found; and in
    the not-found case nothing is raised (outcome ok when the transport
    type is known) and the warning is logged. -/
theorem detach_disconnectOnce (env : TgtEnv) (inp : DetachIn) :
    ((detachVolume env inp).1.countP Event.isDisconnect = 1) ∧
      (env.exec TCmd.showAll = ExecResult.ok →
        findTid (getIqn inp.iqnPrefix inp.instanceName inp.mountpoint) env.statusText
            = none →
        (detachVolume env inp).2.1 = true ∧
          (inp.knownDriverType = true →
            (detachVolume env inp).2.2 = DetachOutcome.ok)) := by
  constructor
  · simp [detachVolume, List.countP_append, detachTry_no_disconnect,
      List.countP_cons, Event.isDisconnect]
  · intro hs hf
    constructor
    · simp [detachVolume, detachTry, hs, hf]
    · intro hk
      simp [detachVolume, detachTry, hs, hf, hk]

/-- Witness for C3: a concrete detach on a daemon reporting no targets logs
    the not-found warning and ends normally. -/
theorem detach_disconnectOnce_witness :
    (detachVolume envAllOk inpDetach).2.1 = true ∧
      (detachVolume envAllOk inpDetach).2.2 = DetachOutcome.ok := by
  have h := (detach_disconnectOnce envAllOk inpDetach).2 rfl (by decide)
  exact ⟨h.1, h.2 rfl⟩

/-! The connector: `get_volume_connector`. -/

/-- Claim C10: initiator discovery is invoked exactly when no non-empty
    name is cached; a non-empty cached name is returned unchanged with no
    discovery; when discovery runs, its result is cached and returned, the
    warning fires exactly when the result is empty, and an empty result
    leaves the cache falsy so the next call retries discovery, while a
    non-empty result makes every subsequent call return that same name
    without discovery; the returned connector always carries the given ip
    and host (its only other key being the initiator). -/
theorem getVolumeConnector_cache (st disc : Option (List Char)) (ip host : List Char) :
    ((getVolumeConnector st disc ip host).discoveryInvoked = strFalsy st) ∧
      ((getVolumeConnector st disc ip host).connector.ip = ip ∧
        (getVolumeConnector st disc ip host).connector.host = host) ∧
      (∀ s, st = some s → s ≠ [] →
        getVolumeConnector st disc ip host =
          ConnectorResult.mk st false false (Connector.mk ip st host)) ∧
      (strFalsy st = true →
        (getVolumeConnector st disc ip host).newState = disc ∧
          (getVolumeConnector st disc ip host).connector.initiator = disc ∧
          (getVolumeConnector st disc ip host).warned = strFalsy disc) ∧
      (strFalsy st = true → strFalsy disc = false → ∀ d2 ip2 h2,
        getVolumeConnector (getVolumeConnector st disc ip host).newState d2 ip2 h2 =
          ConnectorResult.mk disc false false (Connector.mk ip2 disc h2)) := by
  refine ⟨?_, ?_, ?_, ?_, ?_⟩
  · cases h : strFalsy st <;> simp [getVolumeConnector, h]
  · cases h : strFalsy st <;> simp [getVolumeConnector, h]
  · intro s hst hs
    have hf : strFalsy st = false := by
      rw [hst]
      cases s with
      | nil => exact absurd rfl hs
      | cons c cs => rfl
    simp [getVolumeConnector, hf]
  · intro h
    simp [getVolumeConnector, h]
  · intro h1 h2 d2 ip2 hh2
    simp [getVolumeConnector, h1, h2]

/-- Witness for C10: after a call that discovers a non-empty initiator, the
    next call returns the same name without re-discovery. -/
theorem getVolumeConnector_cache_witness :
    getVolumeConnector
        (getVolumeConnector none (some "iqn.init".data) "1.2.3.4".data "h1".data).newState
        none "5.6.7.8".data "h2".data =
      ConnectorResult.mk (some "iqn.init".data) false false
        (Connector.mk "5.6.7.8".data (some "iqn.init".data) "h2".data) :=
  (getVolumeConnector_cache none (some "iqn.init".data) "1.2.3.4".data
    "h1".data).2.2.2.2 rfl rfl none "5.6.7.8".data "h2".data

end Baremetal
